import Mathlib

/-!
# Verification of the cascade animation engine

Shallow embedding of `src/my_tic_tac_toe/cascade/animation.py` and
`src/my_tic_tac_toe/cascade/particle.py`.

Python `float` values (particle `y` and `velocity`) are modelled as `ℚ`;
Python `int` values as `ℤ`/`ℕ`.  Python's `int(...)` conversion (truncation
toward zero) is modelled by `pyInt`.  The only floating-point transcendental,
`math.sin` in the pulse colorizer, is modelled by `Real.sin`.

Randomness (`random.uniform`, `random.choice` in `Particle.create`) is
injected as explicit parameters, as the spec requires for testability.
-/

/-- Python's `int(q)` on a float/rational: truncation toward zero
(floor for nonnegative arguments, ceiling `= -⌊-q⌋` for negative ones). -/
def pyInt (q : ℚ) : ℤ := if 0 ≤ q then ⌊q⌋ else -⌊-q⌋

/-- Embedding of the `Particle` dataclass of `particle.py`. -/
structure Particle where
  char : Char
  x : ℤ
  y : ℚ
  velocity : ℚ
  style : Option String
  frozen : Bool
  spin : ℤ
  deriving DecidableEq, Inhabited

/-- Embedding of `Particle.create` (`particle.py` lines 29-60).  The two
random draws `random.uniform(0.08, 0.4)` and `random.choice([-1, 1])` are
injected as the parameters `vel` and `spin`. -/
def Particle.create (char : Char) (x y : ℕ) (style : Option String)
    (frozen : Bool) (vel : ℚ) (spin : ℤ) : Particle :=
  { char := char
    x := (x : ℤ)
    y := (y : ℚ)
    velocity := if frozen then 0 else vel
    style := style
    frozen := frozen
    spin := if frozen then 0 else spin }

/-- Result of processing one particle in the body of
`CascadeAnimation.update`'s loop: the mutated particle, the floor list after
the iteration, and whether this particle counted toward `still_moving`. -/
structure StepR where
  p : Particle
  floor : List ℤ
  moving : Bool
  deriving DecidableEq

/-- One iteration of the `for p in self.particles` loop of
`CascadeAnimation.update` (`animation.py` lines 114-146), acting on one
particle with the floor list as it stands when that particle is reached. -/
def stepParticle (height : ℕ) (floor : List ℤ) (p : Particle) : StepR :=
  if p.frozen = true ∨ p.velocity = 0 then
    -- lines 115-117: skip frozen and already-landed particles
    ⟨p, floor, false⟩
  else
    -- line 120: floor entry of the current column, or the display height
    let floorY : ℤ :=
      if 0 ≤ p.x ∧ p.x < (floor.length : ℤ) then floor.getD p.x.toNat 0
      else (height : ℤ)
    -- line 123
    let newY : ℚ := p.y + p.velocity
    if ((floorY - 1 : ℤ) : ℚ) ≤ newY then
      -- line 126
      let sideX : ℤ := p.x + p.spin
      -- lines 129-137: slide sideways when the target column is inside the
      -- floor array and has headroom below the current integer row
      if 0 ≤ sideX ∧ sideX < (floor.length : ℤ) ∧
          pyInt p.y + 1 < floor.getD sideX.toNat 0 then
        ⟨{ p with x := sideX, y := newY }, floor, true⟩
      else
        -- lines 139-143: land in place
        ⟨{ p with y := ((floorY - 1 : ℤ) : ℚ), velocity := 0 },
          if 0 ≤ p.x ∧ p.x < (floor.length : ℤ) then
            floor.set p.x.toNat (floor.getD p.x.toNat 0 - 1)
          else floor,
          false⟩
    else
      -- lines 144-146: keep falling
      ⟨{ p with y := newY }, floor, true⟩

/-- The whole particle loop of `CascadeAnimation.update`: processes the
particles in order, threading the floor list, and or-ing the
`still_moving` flags. -/
def updateGo (height : ℕ) : List Particle → List ℤ → List Particle × List ℤ × Bool
  | [], floor => ([], floor, false)
  | p :: ps, floor =>
    let r := stepParticle height floor p
    let rest := updateGo height ps r.floor
    (r.p :: rest.1, rest.2.1, r.moving || rest.2.2)

/-- The mutable state of a `CascadeAnimation` object that the physics
touches: display size, particle list, per-column floor. -/
structure CascadeState where
  width : ℕ
  height : ℕ
  particles : List Particle
  floor : List ℤ
  deriving DecidableEq

/-- Embedding of `CascadeAnimation.update` (`animation.py` lines 106-148):
the new state and the returned `still_moving` boolean. -/
def CascadeAnimation.update (s : CascadeState) : CascadeState × Bool :=
  let r := updateGo s.height s.particles s.floor
  ({ s with particles := r.1, floor := r.2.1 }, r.2.2)

/-- `n` successive calls of `CascadeAnimation.update`, keeping the state. -/
def updateN : ℕ → CascadeState → CascadeState
  | 0, s => s
  | n + 1, s => updateN n (CascadeAnimation.update s).1

theorem updateN_succ_last (n : ℕ) (s : CascadeState) :
    updateN (n + 1) s = (CascadeAnimation.update (updateN n s)).1 := by
  induction n generalizing s with
  | zero => rfl
  | succ n ih => exact ih (CascadeAnimation.update s).1

/-! ## Particle factory (`_init_particles`, `is_in_frozen_area`) -/

/-- `CELL_WIDTH` of `particle.py`. -/
def CELL_WIDTH : ℕ := 17
/-- `CELL_HEIGHT` of `particle.py`. -/
def CELL_HEIGHT : ℕ := 7
/-- `ROW_LABEL_WIDTH` of `particle.py`. -/
def ROW_LABEL_WIDTH : ℕ := 3

/-- Embedding of `cell_to_screen_bounds` (`particle.py` lines 69-89),
returning `(x1, y1, x2, y2)`. -/
def cellToScreenBounds (cellIndex : ℕ) : ℕ × ℕ × ℕ × ℕ :=
  let row := cellIndex / 3
  let col := cellIndex % 3
  let x1 := ROW_LABEL_WIDTH + 1 + col * (CELL_WIDTH + 1)
  let x2 := x1 + CELL_WIDTH
  let y1 := 2 + row * (CELL_HEIGHT + 1)
  let y2 := y1 + CELL_HEIGHT
  (x1, y1, x2, y2)

/-- Embedding of `is_in_frozen_area` (`particle.py` lines 92-107).  The
frozen cell set is passed as a list; `any` is order-insensitive. -/
def isInFrozenArea (x y : ℕ) (frozenCells : List ℕ) : Bool :=
  frozenCells.any fun ci =>
    let b := cellToScreenBounds ci
    decide (b.1 ≤ x ∧ x < b.2.2.1 ∧ b.2.1 ≤ y ∧ y < b.2.2.2)

/-- `board_styles[y][x] if y < len(board_styles) and x < len(board_styles[y])
else None` (`animation.py` lines 97-101). -/
def styleAt (boardStyles : List (List (Option String))) (y x : ℕ) : Option String :=
  (boardStyles.getD y []).getD x none

/-- The row-major scan of `_init_particles` (`animation.py` lines 94-96):
all `(y, x, char)` with `char != " " and char != "\n"`, in scan order. -/
def sceneGlyphs (boardLines : List String) : List (ℕ × ℕ × Char) :=
  ((List.enumFrom 0 boardLines).map fun yl =>
    (List.enumFrom 0 yl.2.data).filterMap fun xc =>
      if xc.2 ≠ ' ' ∧ xc.2 ≠ '\n' then some (yl.1, xc.1, xc.2) else none).flatten

/-- Embedding of `_init_particles` (`animation.py` lines 81-104).  `rng i`
supplies the two random draws of `Particle.create` for the `i`-th created
particle. -/
def initParticles (boardLines : List String)
    (boardStyles : List (List (Option String))) (frozenCells : List ℕ)
    (rng : ℕ → ℚ × ℤ) : List Particle :=
  (List.enumFrom 0 (sceneGlyphs boardLines)).map fun ig =>
    Particle.create ig.2.2.2 ig.2.2.1 ig.2.1
      (styleAt boardStyles ig.2.1 ig.2.2.1)
      (isInFrozenArea ig.2.2.1 ig.2.1 frozenCells)
      (rng ig.1).1 (rng ig.1).2

/-- Embedding of `CascadeAnimation.__init__` (`animation.py` lines 52-79):
particles from the board, floor `[self.height] * self.width`. -/
def CascadeState.init (width height : ℕ) (boardLines : List String)
    (boardStyles : List (List (Option String))) (frozenCells : List ℕ)
    (rng : ℕ → ℚ × ℤ) : CascadeState :=
  { width := width
    height := height
    particles := initParticles boardLines boardStyles frozenCells rng
    floor := List.replicate width (height : ℤ) }

/-! ## Frame compositor (`render_frame`) and pulse colorizer -/

/-- `PULSE_COLORS_RED` (`animation.py` lines 20-28). -/
def PULSE_COLORS_RED : List String :=
  ["grey30", "grey42", "grey54", "grey66", "red", "bright_red", "bold bright_red"]

/-- `PULSE_COLORS_BLUE` (`animation.py` lines 30-38). -/
def PULSE_COLORS_BLUE : List String :=
  ["grey30", "grey42", "grey54", "grey66", "blue", "bright_blue", "bold bright_blue"]

/-- Python's `s.lower()`: lowercase every character. -/
def lowerString (s : String) : String := ⟨s.data.map Char.toLower⟩

/-- Python's substring test `pat in s`. -/
def containsSub (s pat : String) : Bool :=
  (List.range (s.data.length + 1)).any fun i => pat.data.isPrefixOf (s.data.drop i)

/-- The style written for one particle (`animation.py` lines 174-183),
with the pulse index already computed.  Python's `if p.frozen and p.style:`
is false when the style is `None` or the empty string. -/
def resolveStyle (idx : ℕ) (p : Particle) : Option String :=
  match p.style with
  | none => none
  | some st =>
    if p.frozen = true ∧ st ≠ "" then
      if containsSub (lowerString st) "red" then some (PULSE_COLORS_RED.getD idx "")
      else if containsSub (lowerString st) "blue" then some (PULSE_COLORS_BLUE.getD idx "")
      else some st
    else some st

/-- Write `v` at row `r`, column `c` of a grid (`screen[y][p.x] = ...`). -/
def set2 (g : List (List α)) (r c : ℕ) (v : α) : List (List α) :=
  g.set r ((g.getD r []).set c v)

/-- Read row `r`, column `c` of a grid, with default `d`. -/
def get2 (g : List (List α)) (r c : ℕ) (d : α) : α :=
  (g.getD r []).getD c d

/-- The empty screen buffer (`animation.py` lines 157-159). -/
def emptyScreen (width height : ℕ) : List (List Char) :=
  List.replicate height (List.replicate width ' ')

/-- The empty style buffer (`animation.py` lines 160-162). -/
def emptyStyles (width height : ℕ) : List (List (Option String)) :=
  List.replicate height (List.replicate width none)

/-- One iteration of the `for p in self.particles` loop of `render_frame`
(`animation.py` lines 169-183): write the particle's glyph and resolved
style when `0 <= int(p.y) < height and 0 <= p.x < width`, else skip. -/
def placeParticle (width height idx : ℕ)
    (g : List (List Char) × List (List (Option String))) (p : Particle) :
    List (List Char) × List (List (Option String)) :=
  let y := pyInt p.y
  if 0 ≤ y ∧ y < (height : ℤ) ∧ 0 ≤ p.x ∧ p.x < (width : ℤ) then
    (set2 g.1 y.toNat p.x.toNat p.char, set2 g.2 y.toNat p.x.toNat (resolveStyle idx p))
  else g

/-- The glyph and style grids built by `render_frame` for a given pulse
index: all particles placed in creation order over the empty buffers. -/
def renderGrids (width height idx : ℕ) (ps : List Particle) :
    List (List Char) × List (List (Option String)) :=
  ps.foldl (placeParticle width height idx) (emptyScreen width height, emptyStyles width height)

/-- `self._pulse_speed = 0.15` (`animation.py` line 79). -/
noncomputable def PULSE_SPEED : ℝ := 0.15

/-- Python's `int(x)` on a real argument (truncation toward zero). -/
noncomputable def pyIntR (x : ℝ) : ℤ := if 0 ≤ x then ⌊x⌋ else -⌊-x⌋

/-- `(math.sin(t * self._pulse_speed) + 1) / 2` (`animation.py` line 165),
with the frame counter generalized to a real argument. -/
noncomputable def pulsePhase (t : ℝ) : ℝ := (Real.sin (t * PULSE_SPEED) + 1) / 2

/-- `int(pulse_phase * (len(PULSE_COLORS_RED) - 1))` (`animation.py`
line 166), over a real counter. -/
noncomputable def pulseIndexR (t : ℝ) : ℤ :=
  pyIntR (pulsePhase t * ((PULSE_COLORS_RED.length : ℝ) - 1))

/-- The pulse index at an integer frame count, as used by `render_frame`. -/
noncomputable def pulseIndex (frameCount : ℕ) : ℤ := pulseIndexR (frameCount : ℝ)

/-- Embedding of `render_frame` (`animation.py` lines 150-183) up to the
grid contents: the final Rich `Text` is a row-major serialization of these
two grids. -/
noncomputable def renderFrame (frameCount : ℕ) (s : CascadeState) :
    List (List Char) × List (List (Option String)) :=
  renderGrids s.width s.height (pulseIndex frameCount).toNat s.particles

/-! ## Derived notions used in the statements -/

/-- Number of particles that land in column `c` during one call: particles
that were in motion before the call (`before`) and at rest after it
(`after`), resting in column `c`. -/
def landedAt (c : ℤ) (before after : List Particle) : ℕ :=
  (before.zip after).countP fun pq =>
    decide (pq.1.frozen = false ∧ pq.1.velocity ≠ 0 ∧
      pq.2.velocity = 0 ∧ pq.2.x = c)

/-- Whether a particle occupies grid cell `(r, c)` (row `r`, column `c`)
for the compositor: its column is `c` and its rounded-down row is `r`. -/
def hitsCell (r c : ℕ) (p : Particle) : Bool :=
  decide (p.x = (c : ℤ) ∧ ⌊p.y⌋ = (r : ℤ))

/-- The state of the spec's end-to-end scenario: a single non-frozen
particle at column 0, row 0, with velocity `v` and spin `spin`, on a fresh
`width × height` display. -/
def singleParticleState (width height : ℕ) (v : ℚ) (spin : ℤ) : CascadeState :=
  ⟨width, height, [⟨'X', 0, 0, v, none, false, spin⟩],
    List.replicate width (height : ℤ)⟩

/-! ## Helper lemmas about one loop iteration -/

/-- Lines 115-117: a frozen or already-landed particle is skipped and
changes nothing. -/
theorem stepParticle_skip (h : ℕ) (f : List ℤ) (p : Particle)
    (hp : p.frozen = true ∨ p.velocity = 0) :
    stepParticle h f p = ⟨p, f, false⟩ := by
  unfold stepParticle
  rw [if_pos hp]

/-- The loop body never touches `char`, `style`, `frozen` or `spin`. -/
theorem stepParticle_fields (h : ℕ) (f : List ℤ) (p : Particle) :
    (stepParticle h f p).p.char = p.char ∧
      (stepParticle h f p).p.style = p.style ∧
      (stepParticle h f p).p.frozen = p.frozen ∧
      (stepParticle h f p).p.spin = p.spin := by
  unfold stepParticle
  dsimp only
  repeat' split
  all_goals exact ⟨rfl, rfl, rfl, rfl⟩

/-- The loop body flags a particle as moving exactly when it leaves that
particle non-frozen with nonzero velocity. -/
theorem stepParticle_moving_iff (h : ℕ) (f : List ℤ) (p : Particle) :
    ((stepParticle h f p).moving = true ↔
      (stepParticle h f p).p.frozen = false ∧ (stepParticle h f p).p.velocity ≠ 0) := by
  by_cases hp : p.frozen = true ∨ p.velocity = 0
  · rw [stepParticle_skip h f p hp]
    rcases hp with hp | hp <;> simp [hp]
  · push_neg at hp
    obtain ⟨hf, hv⟩ := hp
    have hf' : p.frozen = false := by
      cases hfb : p.frozen
      · rfl
      · exact absurd hfb hf
    unfold stepParticle
    rw [if_neg (by tauto)]
    dsimp only
    repeat' split
    all_goals simp [hf', hv]

/-! ## Lemmas about the whole particle loop -/

theorem updateGo_length (h : ℕ) (ps : List Particle) (f : List ℤ) :
    (updateGo h ps f).1.length = ps.length := by
  induction ps generalizing f with
  | nil => rfl
  | cons p ps ih => simp [updateGo, ih]

theorem updateGo_moving_iff (h : ℕ) (ps : List Particle) (f : List ℤ) :
    ((updateGo h ps f).2.2 = true ↔
      ∃ p ∈ (updateGo h ps f).1, p.frozen = false ∧ p.velocity ≠ 0) := by
  induction ps generalizing f with
  | nil => simp [updateGo]
  | cons p ps ih =>
    simp only [updateGo, List.mem_cons, Bool.or_eq_true, exists_eq_or_imp]
    rw [stepParticle_moving_iff, ih]

theorem updateGo_fields (h : ℕ) (ps : List Particle) (f : List ℤ) (i : ℕ) :
    ((updateGo h ps f).1.getD i default).char = (ps.getD i default).char ∧
      ((updateGo h ps f).1.getD i default).style = (ps.getD i default).style ∧
      ((updateGo h ps f).1.getD i default).frozen = (ps.getD i default).frozen ∧
      ((updateGo h ps f).1.getD i default).spin = (ps.getD i default).spin := by
  induction ps generalizing f i with
  | nil => simp [updateGo]
  | cons p ps ih =>
    cases i with
    | zero => simpa [updateGo] using stepParticle_fields h f p
    | succ i => simpa [updateGo] using ih (stepParticle h f p).floor i

/-- A particle that is frozen or landed is returned unchanged by the loop. -/
theorem updateGo_skip (h : ℕ) (ps : List Particle) (f : List ℤ) (i : ℕ)
    (hp : (ps.getD i default).frozen = true ∨ (ps.getD i default).velocity = 0) :
    (updateGo h ps f).1.getD i default = ps.getD i default := by
  induction ps generalizing f i with
  | nil => simp [updateGo]
  | cons p ps ih =>
    cases i with
    | zero =>
      simp only [List.getD_cons_zero] at hp
      simp [updateGo, stepParticle_skip h f p hp]
    | succ i =>
      simp only [List.getD_cons_succ] at hp
      simpa [updateGo] using ih (stepParticle h f p).floor i hp

/-! ## Claims about `advance_frame()` -/

/-- C1: `advance_frame()` returns false if and only if, after the call,
every non-frozen particle has velocity 0; equivalently it returns true
exactly when some particle is still in motion after this call. -/
theorem claim_C1 (s : CascadeState) :
    ((CascadeAnimation.update s).2 = false ↔
      ∀ p ∈ (CascadeAnimation.update s).1.particles,
        p.frozen = false → p.velocity = 0) ∧
    ((CascadeAnimation.update s).2 = true ↔
      ∃ p ∈ (CascadeAnimation.update s).1.particles,
        p.frozen = false ∧ p.velocity ≠ 0) := by
  have hiff := updateGo_moving_iff s.height s.particles s.floor
  have h2 : (CascadeAnimation.update s).2 = (updateGo s.height s.particles s.floor).2.2 := rfl
  have h1 : (CascadeAnimation.update s).1.particles =
      (updateGo s.height s.particles s.floor).1 := rfl
  rw [h1, h2]
  refine ⟨⟨fun hfalse p hmem hfz => ?_, fun hall => ?_⟩, hiff⟩
  · by_contra hv
    have hb := hiff.mpr ⟨p, hmem, hfz, hv⟩
    rw [hfalse] at hb
    exact Bool.false_ne_true hb
  · cases hb : (updateGo s.height s.particles s.floor).2.2
    · rfl
    · obtain ⟨p, hmem, hfz, hv⟩ := hiff.mp hb
      exact absurd (hall p hmem hfz) hv

/-- C10: `advance_frame()` never modifies any particle's `char`, `style`,
`frozen` flag or `spin`; the particle list keeps its length, and the
display size is untouched (only `x`, `y`, `velocity` and the floor array
can change). -/
theorem claim_C10 (s : CascadeState) :
    (CascadeAnimation.update s).1.particles.length = s.particles.length ∧
    (CascadeAnimation.update s).1.width = s.width ∧
    (CascadeAnimation.update s).1.height = s.height ∧
    ∀ i : ℕ,
      ((CascadeAnimation.update s).1.particles.getD i default).char =
          (s.particles.getD i default).char ∧
        ((CascadeAnimation.update s).1.particles.getD i default).style =
          (s.particles.getD i default).style ∧
        ((CascadeAnimation.update s).1.particles.getD i default).frozen =
          (s.particles.getD i default).frozen ∧
        ((CascadeAnimation.update s).1.particles.getD i default).spin =
          (s.particles.getD i default).spin := by
  refine ⟨updateGo_length _ _ _, rfl, rfl, fun i => ?_⟩
  exact updateGo_fields s.height s.particles s.floor i

/-- C2: a particle that is frozen or whose velocity is already 0 is left
entirely unchanged (position, velocity and all other fields) by any number
of `advance_frame()` calls; in particular frozen particles never move, and
once a non-frozen particle's velocity reaches 0 it never becomes nonzero
again. -/
theorem claim_C2 (s : CascadeState) (i n : ℕ)
    (hp : (s.particles.getD i default).frozen = true ∨
      (s.particles.getD i default).velocity = 0) :
    (updateN n s).particles.getD i default = s.particles.getD i default := by
  induction n generalizing s with
  | zero => rfl
  | succ n ih =>
    have h1 : (CascadeAnimation.update s).1.particles.getD i default =
        s.particles.getD i default :=
      updateGo_skip s.height s.particles s.floor i hp
    calc (updateN (n + 1) s).particles.getD i default
        = (updateN n (CascadeAnimation.update s).1).particles.getD i default := rfl
      _ = (CascadeAnimation.update s).1.particles.getD i default := by
          apply ih; rw [h1]; exact hp
      _ = s.particles.getD i default := h1

/-- Witness for C2: a concrete frozen particle is unchanged after 3 calls. -/
theorem claim_C2_witness :
    (((⟨3, 3, [⟨'O', 1, 1, 0, some "red", true, 0⟩, ⟨'X', 0, 2, 0, none, false, 1⟩],
          [3, 3, 3]⟩ : CascadeState).particles.getD 0 default).frozen = true ∨
      ((⟨3, 3, [⟨'O', 1, 1, 0, some "red", true, 0⟩, ⟨'X', 0, 2, 0, none, false, 1⟩],
          [3, 3, 3]⟩ : CascadeState).particles.getD 0 default).velocity = 0) ∧
    (updateN 3 ⟨3, 3, [⟨'O', 1, 1, 0, some "red", true, 0⟩, ⟨'X', 0, 2, 0, none, false, 1⟩],
        [3, 3, 3]⟩).particles.getD 0 default =
      (⟨3, 3, [⟨'O', 1, 1, 0, some "red", true, 0⟩, ⟨'X', 0, 2, 0, none, false, 1⟩],
        [3, 3, 3]⟩ : CascadeState).particles.getD 0 default :=
  ⟨Or.inl (by decide), claim_C2 _ 0 3 (Or.inl (by decide))⟩

/-! ## C3: landing and sliding behavior -/

theorem pyInt_eq_floor (q : ℚ) (hq : 0 ≤ q) : pyInt q = ⌊q⌋ := if_pos hq

/-- C3: for a non-frozen moving particle whose candidate row
`y' = y + velocity` reaches or passes `floor_y - 1` (here the column is
inside the floor array, whose length is the display width, and `y ≥ 0` as
in every reachable state), the loop body slides it to column `x + spin`
iff that column is within display bounds and its floor entry is strictly
greater than `⌊y⌋ + 1`; when permitted the particle moves to
`(x + spin, y')` and stays in motion; when not permitted it lands in place:
`y = floor_y - 1`, the current column's floor entry is decremented by 1,
and the velocity becomes 0. -/
theorem claim_C3 (width height : ℕ) (f : List ℤ) (p : Particle)
    (hw : f.length = width)
    (hfz : p.frozen = false) (hv : p.velocity ≠ 0) (hy : 0 ≤ p.y)
    (hx : 0 ≤ p.x ∧ p.x < (width : ℤ))
    (hreach : ((f.getD p.x.toNat 0 - 1 : ℤ) : ℚ) ≤ p.y + p.velocity) :
    stepParticle height f p =
      if 0 ≤ p.x + p.spin ∧ p.x + p.spin < (width : ℤ) ∧
          ⌊p.y⌋ + 1 < f.getD (p.x + p.spin).toNat 0 then
        ⟨{ p with x := p.x + p.spin, y := p.y + p.velocity }, f, true⟩
      else
        ⟨{ p with y := ((f.getD p.x.toNat 0 - 1 : ℤ) : ℚ), velocity := 0 },
          f.set p.x.toNat (f.getD p.x.toNat 0 - 1), false⟩ := by
  subst hw
  have hskip : ¬(p.frozen = true ∨ p.velocity = 0) := by simp [hfz, hv]
  unfold stepParticle
  rw [if_neg hskip]
  dsimp only
  rw [if_pos hx, if_pos hreach, pyInt_eq_floor p.y hy, if_pos hx]

/-- Witness for C3, slide case: at column 1 with spin `+1`, floor
`[2, 2, 4]`, the target column 2 has headroom, so the particle slides. -/
theorem claim_C3_witness :
    stepParticle 4 [2, 2, 4] ⟨'X', 1, 1, 1, none, false, 1⟩ =
      ⟨⟨'X', 2, 2, 1, none, false, 1⟩, [2, 2, 4], true⟩ := by
  rw [claim_C3 3 4 [2, 2, 4] ⟨'X', 1, 1, 1, none, false, 1⟩ rfl rfl
    (by norm_num) (by norm_num) (by norm_num)
    (by norm_num [List.getD, Int.toNat_one])]
  rw [if_pos (show _ ∧ _ ∧ _ from
    ⟨by norm_num, by norm_num, by norm_num [List.getD]; try decide⟩)]
  simp only [StepR.mk.injEq, Particle.mk.injEq]
  norm_num

/-! ## C4: the floor array -/

theorem getD_set_self {α : Type} (f : List α) (c : ℕ) (v d : α) (hc : c < f.length) :
    (f.set c v).getD c d = v := by
  rw [List.getD_eq_getElem?_getD, List.getElem?_set_self hc]
  rfl

theorem getD_set_ne {α : Type} (f : List α) (i c : ℕ) (v d : α) (hne : i ≠ c) :
    (f.set i v).getD c d = f.getD c d := by
  rw [List.getD_eq_getElem?_getD, List.getElem?_set_ne hne, ← List.getD_eq_getElem?_getD]

theorem updateGo_cons (h : ℕ) (p : Particle) (ps : List Particle) (f : List ℤ) :
    updateGo h (p :: ps) f =
      ((stepParticle h f p).p :: (updateGo h ps (stepParticle h f p).floor).1,
        (updateGo h ps (stepParticle h f p).floor).2.1,
        (stepParticle h f p).moving || (updateGo h ps (stepParticle h f p).floor).2.2) :=
  rfl

/-- Effect of one loop iteration on one floor entry: unchanged, except
decremented by 1 when this particle lands in that (in-bounds) column. -/
theorem stepParticle_floor (h : ℕ) (f : List ℤ) (p : Particle) (c : ℕ)
    (hc : c < f.length) :
    (stepParticle h f p).floor.length = f.length ∧
    (stepParticle h f p).floor.getD c 0 =
      f.getD c 0 -
        (if p.frozen = false ∧ p.velocity ≠ 0 ∧ (stepParticle h f p).p.velocity = 0 ∧
            (stepParticle h f p).p.x = (c : ℤ) then 1 else 0) := by
  by_cases hp : p.frozen = true ∨ p.velocity = 0
  · rw [stepParticle_skip h f p hp]
    have hno : ¬(p.frozen = false ∧ p.velocity ≠ 0 ∧ p.velocity = 0 ∧ p.x = (c : ℤ)) := by
      tauto
    refine ⟨rfl, ?_⟩
    rw [if_neg hno]
    dsimp only
    omega
  · push_neg at hp
    obtain ⟨hfne, hv⟩ := hp
    have hf' : p.frozen = false := by
      cases hfb : p.frozen
      · rfl
      · exact absurd hfb hfne
    unfold stepParticle
    rw [if_neg (by tauto)]
    dsimp only
    by_cases hxb : 0 ≤ p.x ∧ p.x < (f.length : ℤ)
    · simp only [if_pos hxb]
      by_cases hreach : ((f.getD p.x.toNat 0 - 1 : ℤ) : ℚ) ≤ p.y + p.velocity
      · simp only [if_pos hreach]
        by_cases hslide : 0 ≤ p.x + p.spin ∧ p.x + p.spin < (f.length : ℤ) ∧
            pyInt p.y + 1 < f.getD (p.x + p.spin).toNat 0
        · simp only [if_pos hslide]
          simp [hf', hv]
        · simp only [if_neg hslide]
          by_cases hxc : p.x = (c : ℤ)
          · have htn : p.x.toNat = c := by
              rw [hxc]
              exact Int.toNat_natCast c
            refine ⟨by simp, ?_⟩
            rw [htn, getD_set_self f c _ 0 hc]
            simp [hf', hv, hxc]
          · have htn : p.x.toNat ≠ c := by
              intro hEq
              apply hxc
              rw [← hEq]
              exact (Int.toNat_of_nonneg hxb.1).symm
            refine ⟨by simp, ?_⟩
            rw [getD_set_ne f p.x.toNat c _ 0 htn]
            simp [hf', hv, hxc]
      · simp only [if_neg hreach]
        simp [hf', hv]
    · simp only [if_neg hxb]
      by_cases hreach : (((h : ℤ) - 1 : ℤ) : ℚ) ≤ p.y + p.velocity
      · simp only [if_pos hreach]
        by_cases hslide : 0 ≤ p.x + p.spin ∧ p.x + p.spin < (f.length : ℤ) ∧
            pyInt p.y + 1 < f.getD (p.x + p.spin).toNat 0
        · simp only [if_pos hslide]
          simp [hf', hv]
        · simp only [if_neg hslide]
          have hxc : ¬(p.x = (c : ℤ)) := by
            intro hEq
            apply hxb
            refine ⟨by omega, ?_⟩
            rw [hEq]
            exact_mod_cast hc
          simp [hf', hv, hxc]
      · simp only [if_neg hreach]
        simp [hf', hv]

/-- Effect of the whole loop on one floor entry: the entry drops by exactly
the number of particles that land in that column during the call. -/
theorem updateGo_floor (h : ℕ) (ps : List Particle) (f : List ℤ) (c : ℕ)
    (hc : c < f.length) :
    (updateGo h ps f).2.1.length = f.length ∧
    (updateGo h ps f).2.1.getD c 0 =
      f.getD c 0 - landedAt (c : ℤ) ps (updateGo h ps f).1 := by
  induction ps generalizing f with
  | nil => simp [updateGo, landedAt]
  | cons p ps ih =>
    obtain ⟨hlen, hval⟩ := stepParticle_floor h f p c hc
    have hc' : c < (stepParticle h f p).floor.length := by rw [hlen]; exact hc
    obtain ⟨ihlen, ihval⟩ := ih (stepParticle h f p).floor hc'
    rw [updateGo_cons]
    refine ⟨by rw [ihlen, hlen], ?_⟩
    show (updateGo h ps (stepParticle h f p).floor).2.1.getD c 0 = _
    rw [ihval, hval]
    unfold landedAt
    simp only [List.zip_cons_cons, List.countP_cons, decide_eq_true_eq]
    by_cases hcond : p.frozen = false ∧ p.velocity ≠ 0 ∧
        (stepParticle h f p).p.velocity = 0 ∧ (stepParticle h f p).p.x = (c : ℤ)
    · rw [if_pos hcond, if_pos hcond]
      push_cast
      ring
    · rw [if_neg hcond, if_neg hcond]
      push_cast
      ring

theorem stepParticle_floor_length (h : ℕ) (f : List ℤ) (p : Particle) :
    (stepParticle h f p).floor.length = f.length := by
  unfold stepParticle
  dsimp only
  repeat' split
  all_goals simp

theorem updateGo_floor_length (h : ℕ) (ps : List Particle) (f : List ℤ) :
    (updateGo h ps f).2.1.length = f.length := by
  induction ps generalizing f with
  | nil => rfl
  | cons p ps ih =>
    rw [updateGo_cons]
    show (updateGo h ps (stepParticle h f p).floor).2.1.length = f.length
    rw [ih, stepParticle_floor_length]

theorem update_floor_le (s : CascadeState) (c : ℕ) (hc : c < s.floor.length) :
    (CascadeAnimation.update s).1.floor.getD c 0 ≤ s.floor.getD c 0 := by
  have h2 := (updateGo_floor s.height s.particles s.floor c hc).2
  show (updateGo s.height s.particles s.floor).2.1.getD c 0 ≤ _
  rw [h2]
  omega

theorem updateN_floor_length (n : ℕ) (s : CascadeState) :
    (updateN n s).floor.length = s.floor.length := by
  induction n generalizing s with
  | zero => rfl
  | succ n ih =>
    show (updateN n (CascadeAnimation.update s).1).floor.length = _
    rw [ih]
    exact updateGo_floor_length s.height s.particles s.floor

theorem updateN_floor_le (n : ℕ) (s : CascadeState) (c : ℕ) (hc : c < s.floor.length) :
    (updateN n s).floor.getD c 0 ≤ s.floor.getD c 0 := by
  induction n generalizing s with
  | zero => exact le_refl _
  | succ n ih =>
    have hlen : (CascadeAnimation.update s).1.floor.length = s.floor.length :=
      updateGo_floor_length s.height s.particles s.floor
    have h1 := ih (CascadeAnimation.update s).1 (by rw [hlen]; exact hc)
    exact le_trans h1 (update_floor_le s c hc)

/-- C4 (amended): every floor entry is non-increasing across
`advance_frame()` calls, is mutated only by being decremented by 1 per
newly landed particle in that column, and never rises above the initial
display height; but it is not bounded below by 0 (see the
counterexample). -/
theorem claim_C4_amended (s : CascadeState) (c : ℕ) (hc : c < s.floor.length) :
    (CascadeAnimation.update s).1.floor.length = s.floor.length ∧
    (CascadeAnimation.update s).1.floor.getD c 0 =
      s.floor.getD c 0 -
        landedAt (c : ℤ) s.particles (CascadeAnimation.update s).1.particles ∧
    (CascadeAnimation.update s).1.floor.getD c 0 ≤ s.floor.getD c 0 ∧
    (∀ n : ℕ, (updateN n s).floor.getD c 0 ≤ s.floor.getD c 0) ∧
    ∀ (n width height : ℕ) (bl : List String) (bs : List (List (Option String)))
      (fz : List ℕ) (rng : ℕ → ℚ × ℤ) (c2 : ℕ),
      (updateN n (CascadeState.init width height bl bs fz rng)).floor.getD c2 0 ≤
        (height : ℤ) := by
  refine ⟨updateGo_floor_length s.height s.particles s.floor,
    (updateGo_floor s.height s.particles s.floor c hc).2,
    update_floor_le s c hc,
    fun n => updateN_floor_le n s c hc,
    fun n width height bl bs fz rng c2 => ?_⟩
  by_cases hcb : c2 < width
  · have hlen : (CascadeState.init width height bl bs fz rng).floor.length = width := by
      simp [CascadeState.init]
    have h0 : (CascadeState.init width height bl bs fz rng).floor.getD c2 0 =
        (height : ℤ) := by
      show (List.replicate width ((height : ℕ) : ℤ)).getD c2 0 = (height : ℤ)
      rw [List.getD_eq_getElem?_getD, List.getElem?_replicate, if_pos hcb]
      rfl
    have := updateN_floor_le n (CascadeState.init width height bl bs fz rng) c2
      (by rw [hlen]; exact hcb)
    rw [h0] at this
    exact this
  · have hlen : (updateN n (CascadeState.init width height bl bs fz rng)).floor.length =
        width := by
      rw [updateN_floor_length]
      simp [CascadeState.init]
    have h0 : (updateN n (CascadeState.init width height bl bs fz rng)).floor.getD c2 0 =
        0 := by
      rw [List.getD_eq_getElem?_getD, List.getElem?_eq_none (by omega)]
      rfl
    rw [h0]
    exact_mod_cast Nat.zero_le height

/-- Witness for C4 (amended): the decrement equation at a concrete state of
three falling particles in one column. -/
theorem claim_C4_amended_witness :
    (CascadeAnimation.update
      ⟨1, 2, [⟨'X', 0, 0, 2/5, none, false, -1⟩, ⟨'X', 0, 1, 2/5, none, false, -1⟩,
        ⟨'X', 0, 2, 2/5, none, false, -1⟩], [2]⟩).1.floor.getD 0 0 =
      ([2] : List ℤ).getD 0 0 -
        landedAt (0 : ℤ)
          [⟨'X', 0, 0, 2/5, none, false, -1⟩, ⟨'X', 0, 1, 2/5, none, false, -1⟩,
            ⟨'X', 0, 2, 2/5, none, false, -1⟩]
          (CascadeAnimation.update
            ⟨1, 2, [⟨'X', 0, 0, 2/5, none, false, -1⟩, ⟨'X', 0, 1, 2/5, none, false, -1⟩,
              ⟨'X', 0, 2, 2/5, none, false, -1⟩], [2]⟩).1.particles :=
  (claim_C4_amended
    ⟨1, 2, [⟨'X', 0, 0, 2/5, none, false, -1⟩, ⟨'X', 0, 1, 2/5, none, false, -1⟩,
      ⟨'X', 0, 2, 2/5, none, false, -1⟩], [2]⟩ 0 (by norm_num)).2.1

/-- Counterexample to C4 as stated: starting from `__init__` with a 1×2
display and a three-row board of glyphs in column 0 (velocities 2/5, spins
-1, all legal draws of `Particle.create`), the floor entry of column 0 is
-1 after two `advance_frame()` calls: floor entries do fall below 0. -/
theorem claim_C4_counterexample :
    (updateN 2 (CascadeState.init 1 2 ["X", "X", "X"] [] [] fun _ => (2/5, -1))).floor.getD
        0 0 = -1 := by
  norm_num [CascadeState.init, initParticles, sceneGlyphs, styleAt, isInFrozenArea,
    Particle.create, List.enumFrom, updateN, CascadeAnimation.update,
    updateGo, stepParticle, pyInt, List.getD, List.replicate]

/-! ## C6: out-of-bounds columns -/

/-- The loop body changes a particle's column only through the guarded
slide, so any new column lies inside the floor array. -/
theorem stepParticle_x (h : ℕ) (f : List ℤ) (p : Particle) :
    (stepParticle h f p).p.x = p.x ∨
      (0 ≤ (stepParticle h f p).p.x ∧ (stepParticle h f p).p.x < (f.length : ℤ)) := by
  unfold stepParticle
  dsimp only
  repeat' split
  all_goals first
    | (left; rfl)
    | (rename_i hs; right; exact ⟨hs.1, hs.2.1⟩)

/-- C6 (amended): when a particle's column is outside the floor array,
`advance_frame()` treats the floor for that column as the full display
height; such a particle is not tracked indefinitely: if it can neither
fall further nor slide it lands at row `height - 1` with velocity 0 and no
floor entry is decremented.  Moreover no slide ever targets a column
outside the floor array, so a particle cannot slide into an out-of-bounds
column in the first place. -/
theorem claim_C6_amended (height : ℕ) (f : List ℤ) (p : Particle)
    (hfz : p.frozen = false) (hv : p.velocity ≠ 0)
    (hx : ¬(0 ≤ p.x ∧ p.x < (f.length : ℤ))) :
    (stepParticle height f p =
      if (((height : ℤ) - 1 : ℤ) : ℚ) ≤ p.y + p.velocity then
        if 0 ≤ p.x + p.spin ∧ p.x + p.spin < (f.length : ℤ) ∧
            pyInt p.y + 1 < f.getD (p.x + p.spin).toNat 0 then
          ⟨{ p with x := p.x + p.spin, y := p.y + p.velocity }, f, true⟩
        else
          ⟨{ p with y := (((height : ℤ) - 1 : ℤ) : ℚ), velocity := 0 }, f, false⟩
      else ⟨{ p with y := p.y + p.velocity }, f, true⟩) ∧
    ∀ (h2 : ℕ) (f2 : List ℤ) (q : Particle),
      (stepParticle h2 f2 q).p.x ≠ q.x →
        0 ≤ (stepParticle h2 f2 q).p.x ∧ (stepParticle h2 f2 q).p.x < (f2.length : ℤ) := by
  constructor
  · have hskip : ¬(p.frozen = true ∨ p.velocity = 0) := by simp [hfz, hv]
    unfold stepParticle
    rw [if_neg hskip]
    dsimp only
    rw [if_neg hx, if_neg hx]
  · intro h2 f2 q hne
    exact (stepParticle_x h2 f2 q).resolve_left hne

/-- Witness for C6 (amended): a particle at column 3 on a width-3 display
(out of bounds) that reaches the bottom and cannot slide lands at row
`height - 1 = 2` with velocity 0, and the floor is untouched. -/
theorem claim_C6_amended_witness :
    stepParticle 3 [3, 3, 3] ⟨'X', 3, 2, 2/5, none, false, 1⟩ =
      ⟨⟨'X', 3, 2, 0, none, false, 1⟩, [3, 3, 3], false⟩ := by
  rw [(claim_C6_amended 3 [3, 3, 3] ⟨'X', 3, 2, 2/5, none, false, 1⟩ rfl
    (by norm_num) (by decide)).1]
  rw [if_pos (by norm_num), if_neg (fun hcon => absurd hcon.2.1 (by norm_num))]
  simp only [StepR.mk.injEq, Particle.mk.injEq]
  norm_num

/-- Counterexample to C6 as stated: a particle created at column 3 of a
3×3 display (from a board row wider than the display) is out of the floor
array's bounds, yet it is not tracked indefinitely: after 5 calls it has
landed at row `height - 1 = 2` with velocity 0, and `advance_frame()`
then returns false. -/
theorem claim_C6_counterexample :
    (updateN 5 (CascadeState.init 3 3 ["   X"] [] [] fun _ => (2/5, 1))).particles.getD 0
        default = ⟨'X', 3, 2, 0, none, false, 1⟩ ∧
    ((updateN 5 (CascadeState.init 3 3 ["   X"] [] [] fun _ => (2/5, 1))).particles.getD 0
        default).velocity = 0 ∧
    (CascadeAnimation.update
      (updateN 5 (CascadeState.init 3 3 ["   X"] [] [] fun _ => (2/5, 1)))).2 = false := by
  norm_num [CascadeState.init, initParticles, sceneGlyphs, styleAt, isInFrozenArea,
    Particle.create, List.enumFrom, updateN, CascadeAnimation.update,
    updateGo, stepParticle, pyInt, List.getD, List.replicate]

/-! ## C5: the end-to-end single-particle scenario -/

theorem updateGo_singleton (h : ℕ) (p : Particle) (f : List ℤ) :
    updateGo h [p] f =
      ([(stepParticle h f p).p], (stepParticle h f p).floor,
        (stepParticle h f p).moving) := by
  rw [updateGo_cons]
  simp [updateGo]

theorem update_singleton (s : CascadeState) (p : Particle) (hp : s.particles = [p]) :
    CascadeAnimation.update s =
      (⟨s.width, s.height, [(stepParticle s.height s.floor p).p],
        (stepParticle s.height s.floor p).floor⟩,
        (stepParticle s.height s.floor p).moving) := by
  unfold CascadeAnimation.update
  rw [hp, updateGo_singleton]

theorem getD_replicate_pos (W H : ℕ) (hW : 0 < W) :
    (List.replicate W ((H : ℕ) : ℤ)).getD 0 0 = (H : ℤ) := by
  rw [List.getD_eq_getElem?_getD, List.getElem?_replicate, if_pos hW]
  rfl

/-- A single falling particle at column 0 that has not yet reached the
floor line simply falls by its velocity. -/
theorem step_single_fall (W H : ℕ) (hW : 1 ≤ W) (v yv : ℚ) (hv : v ≠ 0)
    (hnr : ¬((((H : ℤ) - 1 : ℤ) : ℚ) ≤ yv + v)) :
    stepParticle H (List.replicate W ((H : ℕ) : ℤ)) ⟨'X', 0, yv, v, none, false, -1⟩ =
      ⟨⟨'X', 0, yv + v, v, none, false, -1⟩, List.replicate W ((H : ℕ) : ℤ), true⟩ := by
  unfold stepParticle
  rw [if_neg (by simp [hv])]
  dsimp only
  simp only [List.length_replicate, Int.toNat_zero, getD_replicate_pos W H (by omega)]
  have hb : (0 : ℤ) ≤ 0 ∧ (0 : ℤ) < ((W : ℕ) : ℤ) :=
    ⟨le_refl _, by exact_mod_cast hW⟩
  rw [if_pos hb, if_pos hb]
  rw [if_neg hnr]

/-- A single falling particle at column 0 with spin -1 that reaches the
floor line cannot slide (column -1 is out of bounds) and lands. -/
theorem step_single_land (W H : ℕ) (hW : 1 ≤ W) (v yv : ℚ) (hv : v ≠ 0)
    (hr : (((H : ℤ) - 1 : ℤ) : ℚ) ≤ yv + v) :
    stepParticle H (List.replicate W ((H : ℕ) : ℤ)) ⟨'X', 0, yv, v, none, false, -1⟩ =
      ⟨⟨'X', 0, (((H : ℤ) - 1 : ℤ) : ℚ), 0, none, false, -1⟩,
        (List.replicate W ((H : ℕ) : ℤ)).set 0 ((H : ℤ) - 1), false⟩ := by
  unfold stepParticle
  rw [if_neg (by simp [hv])]
  dsimp only
  simp only [List.length_replicate, Int.toNat_zero, getD_replicate_pos W H (by omega)]
  have hb : (0 : ℤ) ≤ 0 ∧ (0 : ℤ) < ((W : ℕ) : ℤ) :=
    ⟨le_refl _, by exact_mod_cast hW⟩
  rw [if_pos hb, if_pos hb]
  rw [if_pos hr, if_neg (fun hc => absurd hc.1 (by norm_num))]

/-- C5 (amended): a single non-frozen particle at column 0, row 0, with
velocity `v > 0` and spin `-1` (so the slide at impact is blocked at the
left display edge), on a `W × H` display with `H ≥ 2`, falls for exactly
`k = ⌈(H-1)/v⌉` calls: after `n < k` calls it is at row `n·v` still moving
with velocity `v`, after exactly `k` calls it rests at row `H - 1` in
column 0 with velocity 0 and the floor entry of column 0 decremented, and
the next `advance_frame()` call returns false.  (With spin `+1` and
`W ≥ 2` the claim as stated fails; see the counterexample.) -/
theorem claim_C5_amended (W H : ℕ) (v : ℚ) (hW : 1 ≤ W) (hH : 2 ≤ H) (hv : 0 < v) :
    (∀ n : ℕ, n < (⌈(((H : ℚ) - 1) / v)⌉).toNat →
      updateN n (singleParticleState W H v (-1)) =
        ⟨W, H, [⟨'X', 0, (n : ℚ) * v, v, none, false, -1⟩],
          List.replicate W ((H : ℕ) : ℤ)⟩) ∧
    updateN (⌈(((H : ℚ) - 1) / v)⌉).toNat (singleParticleState W H v (-1)) =
      ⟨W, H, [⟨'X', 0, (H : ℚ) - 1, 0, none, false, -1⟩],
        (List.replicate W ((H : ℕ) : ℤ)).set 0 ((H : ℤ) - 1)⟩ ∧
    (CascadeAnimation.update
      (updateN (⌈(((H : ℚ) - 1) / v)⌉).toNat (singleParticleState W H v (-1)))).2 =
      false := by
  have hv' : v ≠ 0 := ne_of_gt hv
  have hH1 : (0 : ℚ) < (H : ℚ) - 1 := by
    have h2 : (2 : ℚ) ≤ (H : ℚ) := by exact_mod_cast hH
    linarith
  have hkpos : 1 ≤ ⌈(((H : ℚ) - 1) / v)⌉ := Int.ceil_pos.mpr (div_pos hH1 hv)
  have hkk : ((⌈(((H : ℚ) - 1) / v)⌉.toNat : ℤ)) = ⌈(((H : ℚ) - 1) / v)⌉ :=
    Int.toNat_of_nonneg (by omega)
  have hchar : ∀ n : ℕ, n < (⌈(((H : ℚ) - 1) / v)⌉).toNat ↔ (n : ℚ) * v < (H : ℚ) - 1 := by
    intro n
    rw [← Nat.cast_lt (α := ℤ), hkk, Int.lt_ceil, lt_div_iff₀ hv]
    exact Iff.rfl.trans (by push_cast; exact Iff.rfl)
  have main : ∀ n : ℕ, n < (⌈(((H : ℚ) - 1) / v)⌉).toNat →
      updateN n (singleParticleState W H v (-1)) =
        ⟨W, H, [⟨'X', 0, (n : ℚ) * v, v, none, false, -1⟩],
          List.replicate W ((H : ℕ) : ℤ)⟩ := by
    intro n
    induction n with
    | zero =>
      intro _
      simp [singleParticleState, updateN]
    | succ n ih =>
      intro hSn
      have hn : n < (⌈(((H : ℚ) - 1) / v)⌉).toNat := Nat.lt_of_succ_lt hSn
      have hstate := ih hn
      have hlt : ((n + 1 : ℕ) : ℚ) * v < (H : ℚ) - 1 := (hchar (n + 1)).mp hSn
      have hnr : ¬((((H : ℤ) - 1 : ℤ) : ℚ) ≤ (n : ℚ) * v + v) := by
        push_cast at hlt ⊢
        intro hcon
        nlinarith
      rw [updateN_succ_last, hstate,
        update_singleton _ ⟨'X', 0, (n : ℚ) * v, v, none, false, -1⟩ rfl]
      dsimp only
      rw [step_single_fall W H hW v ((n : ℚ) * v) hv' hnr]
      simp only [CascadeState.mk.injEq, List.cons.injEq, Particle.mk.injEq,
        and_true, true_and]
      push_cast
      ring
  refine ⟨main, ?_, ?_⟩
  · obtain ⟨m, hm⟩ : ∃ m, (⌈(((H : ℚ) - 1) / v)⌉).toNat = m + 1 :=
      ⟨(⌈(((H : ℚ) - 1) / v)⌉).toNat - 1, by omega⟩
    have hmlt : m < (⌈(((H : ℚ) - 1) / v)⌉).toNat := by omega
    have hstate := main m hmlt
    have hnotlt : ¬(((m + 1 : ℕ) : ℚ) * v < (H : ℚ) - 1) := by
      rw [← hchar (m + 1)]
      omega
    have hr : (((H : ℤ) - 1 : ℤ) : ℚ) ≤ (m : ℚ) * v + v := by
      push_cast at hnotlt ⊢
      nlinarith [not_lt.mp hnotlt]
    rw [hm, updateN_succ_last, hstate,
      update_singleton _ ⟨'X', 0, (m : ℚ) * v, v, none, false, -1⟩ rfl]
    dsimp only
    rw [step_single_land W H hW v ((m : ℚ) * v) hv' hr]
    simp only [CascadeState.mk.injEq, List.cons.injEq, Particle.mk.injEq,
      and_true, true_and]
    push_cast
    ring
  · obtain ⟨m, hm⟩ : ∃ m, (⌈(((H : ℚ) - 1) / v)⌉).toNat = m + 1 :=
      ⟨(⌈(((H : ℚ) - 1) / v)⌉).toNat - 1, by omega⟩
    have hmlt : m < (⌈(((H : ℚ) - 1) / v)⌉).toNat := by omega
    have hstate := main m hmlt
    have hnotlt : ¬(((m + 1 : ℕ) : ℚ) * v < (H : ℚ) - 1) := by
      rw [← hchar (m + 1)]
      omega
    have hr : (((H : ℤ) - 1 : ℤ) : ℚ) ≤ (m : ℚ) * v + v := by
      push_cast at hnotlt ⊢
      nlinarith [not_lt.mp hnotlt]
    rw [hm, updateN_succ_last, hstate,
      update_singleton ⟨W, H, [⟨'X', 0, (m : ℚ) * v, v, none, false, -1⟩],
        List.replicate W ((H : ℕ) : ℤ)⟩ ⟨'X', 0, (m : ℚ) * v, v, none, false, -1⟩ rfl]
    dsimp only
    rw [step_single_land W H hW v ((m : ℚ) * v) hv' hr]
    dsimp only
    rw [update_singleton ⟨W, H, [⟨'X', 0, (((H : ℤ) - 1 : ℤ) : ℚ), 0, none, false, -1⟩],
        (List.replicate W ((H : ℕ) : ℤ)).set 0 ((H : ℤ) - 1)⟩
      ⟨'X', 0, (((H : ℤ) - 1 : ℤ) : ℚ), 0, none, false, -1⟩ rfl]
    rw [stepParticle_skip _ _ _ (Or.inr rfl)]

/-- Witness for C5 (amended): with `W = H = 3` and `v = 2/5`,
`k = ⌈(H-1)/v⌉ = 5`, the particle rests at row 2 after exactly 5 calls and
the next call returns false. -/
theorem claim_C5_amended_witness :
    (⌈(((3 : ℚ) - 1) / (2 / 5))⌉).toNat = 5 ∧
    updateN (⌈(((3 : ℚ) - 1) / (2 / 5))⌉).toNat (singleParticleState 3 3 (2 / 5) (-1)) =
      ⟨3, 3, [⟨'X', 0, (3 : ℚ) - 1, 0, none, false, -1⟩],
        (List.replicate 3 ((3 : ℕ) : ℤ)).set 0 ((3 : ℤ) - 1)⟩ ∧
    (CascadeAnimation.update (updateN (⌈(((3 : ℚ) - 1) / (2 / 5))⌉).toNat
      (singleParticleState 3 3 (2 / 5) (-1)))).2 = false :=
  ⟨by norm_num; rfl,
    (claim_C5_amended 3 3 (2 / 5) (by norm_num) (by norm_num) (by norm_num)).2.1,
    (claim_C5_amended 3 3 (2 / 5) (by norm_num) (by norm_num) (by norm_num)).2.2⟩

/-- Counterexample to C5 as stated: with `W = H = 3`, `v = 2/5` and spin
`+1`, `ceil((H-1)/v) = 5`, but after 5 calls the particle has slid to
column 1 and is still moving (velocity `2/5 ≠ 0`), so it has not reached
rest; it rests only after 6 calls, in column 1. -/
theorem claim_C5_counterexample :
    (⌈(((3 : ℚ) - 1) / (2 / 5))⌉).toNat = 5 ∧
    ((updateN 5 (singleParticleState 3 3 (2 / 5) 1)).particles.getD 0 default).velocity ≠
      0 ∧
    (updateN 5 (singleParticleState 3 3 (2 / 5) 1)).particles.getD 0 default =
      ⟨'X', 1, 2, 2 / 5, none, false, 1⟩ ∧
    (updateN 6 (singleParticleState 3 3 (2 / 5) 1)).particles.getD 0 default =
      ⟨'X', 1, 2, 0, none, false, 1⟩ := by
  refine ⟨by norm_num; rfl, ?_, ?_, ?_⟩ <;>
    · norm_num [singleParticleState, updateN, CascadeAnimation.update, updateGo,
        stepParticle, pyInt, List.getD, List.replicate]
      try decide

/-! ## C7: the frame compositor -/

theorem get2_set2_self {α : Type} (g : List (List α)) (r c : ℕ) (v d : α)
    (hr : r < g.length) (hc : c < (g.getD r []).length) :
    get2 (set2 g r c v) r c d = v := by
  unfold get2 set2
  rw [getD_set_self _ _ _ _ hr, getD_set_self _ _ _ _ hc]

theorem get2_set2_ne {α : Type} (g : List (List α)) (r0 c0 r c : ℕ) (v d : α)
    (hne : ¬(r0 = r ∧ c0 = c)) :
    get2 (set2 g r0 c0 v) r c d = get2 g r c d := by
  unfold get2 set2
  by_cases hr : r0 = r
  · subst hr
    have hcne : c0 ≠ c := fun h => hne ⟨rfl, h⟩
    by_cases hrl : r0 < g.length
    · rw [getD_set_self _ _ _ _ hrl, getD_set_ne _ _ _ _ _ hcne]
    · rw [List.set_eq_of_length_le (le_of_not_lt hrl)]
  · rw [getD_set_ne _ _ _ _ _ hr]

theorem set2_dims {α : Type} (W : ℕ) (g : List (List α)) (r c : ℕ) (v : α)
    (hrows : ∀ row ∈ g, row.length = W) :
    (set2 g r c v).length = g.length ∧ ∀ row ∈ set2 g r c v, row.length = W := by
  refine ⟨List.length_set g r _, ?_⟩
  by_cases hrl : r < g.length
  · intro row hrow
    rcases List.mem_or_eq_of_mem_set hrow with h | h
    · exact hrows _ h
    · subst h
      rw [List.length_set, List.getD_eq_getElem g [] hrl]
      exact hrows _ (List.getElem_mem hrl)
  · unfold set2
    rw [List.set_eq_of_length_le (le_of_not_lt hrl)]
    exact fun row hrow => hrows _ hrow

theorem placeParticle_dims (W H idx : ℕ)
    (g : List (List Char) × List (List (Option String))) (p : Particle)
    (h1 : g.1.length = H) (h2 : ∀ row ∈ g.1, row.length = W)
    (h3 : g.2.length = H) (h4 : ∀ row ∈ g.2, row.length = W) :
    (placeParticle W H idx g p).1.length = H ∧
      (∀ row ∈ (placeParticle W H idx g p).1, row.length = W) ∧
      (placeParticle W H idx g p).2.length = H ∧
      ∀ row ∈ (placeParticle W H idx g p).2, row.length = W := by
  unfold placeParticle
  dsimp only
  split
  · obtain ⟨e1, e2⟩ := set2_dims W g.1 (pyInt p.y).toNat p.x.toNat p.char h2
    obtain ⟨e3, e4⟩ := set2_dims W g.2 (pyInt p.y).toNat p.x.toNat (resolveStyle idx p) h4
    exact ⟨by rw [e1, h1], e2, by rw [e3, h3], e4⟩
  · exact ⟨h1, h2, h3, h4⟩

theorem renderGrids_dims (W H idx : ℕ) (ps : List Particle) :
    (renderGrids W H idx ps).1.length = H ∧
      (∀ row ∈ (renderGrids W H idx ps).1, row.length = W) ∧
      (renderGrids W H idx ps).2.length = H ∧
      ∀ row ∈ (renderGrids W H idx ps).2, row.length = W := by
  induction ps using List.reverseRecOn with
  | nil =>
    refine ⟨List.length_replicate H _, ?_, List.length_replicate H _, ?_⟩ <;>
      · intro row hrow
        rw [List.eq_of_mem_replicate hrow]
        exact List.length_replicate W _
  | append_singleton ps p ih =>
    obtain ⟨h1, h2, h3, h4⟩ := ih
    have hrg : renderGrids W H idx (ps ++ [p]) =
        placeParticle W H idx (renderGrids W H idx ps) p := by
      unfold renderGrids
      rw [List.foldl_append]
      rfl
    rw [hrg]
    exact placeParticle_dims W H idx _ p h1 h2 h3 h4

/-- The content of every in-bounds grid cell after compositing: the last
particle of the list (creation order) whose rounded-down position is that
cell, or the blank defaults. -/
theorem renderGrids_cell (W H idx r c : ℕ) (hr : r < H) (hc : c < W) :
    ∀ ps : List Particle, (∀ p ∈ ps, 0 ≤ p.y) →
      get2 (renderGrids W H idx ps).1 r c ' ' =
        (match List.find? (hitsCell r c) ps.reverse with
          | some p => p.char
          | none => ' ') ∧
      get2 (renderGrids W H idx ps).2 r c none =
        (match List.find? (hitsCell r c) ps.reverse with
          | some p => resolveStyle idx p
          | none => none) := by
  intro ps
  induction ps using List.reverseRecOn with
  | nil =>
    intro _
    simp only [List.reverse_nil, List.find?_nil]
    constructor
    · show get2 (emptyScreen W H) r c ' ' = ' '
      simp only [get2, emptyScreen, List.getD_eq_getElem?_getD,
        List.getElem?_replicate, if_pos hr, if_pos hc, Option.getD_some]
    · show get2 (emptyStyles W H) r c none = none
      simp only [get2, emptyStyles, List.getD_eq_getElem?_getD,
        List.getElem?_replicate, if_pos hr, if_pos hc, Option.getD_some]
  | append_singleton ps p ih =>
    intro hy
    have hy' : ∀ q ∈ ps, 0 ≤ q.y := fun q hq => hy q (List.mem_append_left _ hq)
    have hyp : 0 ≤ p.y := hy p (List.mem_append_right _ (by simp))
    obtain ⟨ih1, ih2⟩ := ih hy'
    have hrg : renderGrids W H idx (ps ++ [p]) =
        placeParticle W H idx (renderGrids W H idx ps) p := by
      unfold renderGrids
      rw [List.foldl_append]
      rfl
    have hrev : (ps ++ [p]).reverse = p :: ps.reverse := by
      rw [List.reverse_append]
      rfl
    rw [hrg, hrev, List.find?_cons]
    obtain ⟨d1, d2, d3, d4⟩ := renderGrids_dims W H idx ps
    by_cases hhit : hitsCell r c p = true
    · simp only [hhit]
      obtain ⟨hpx, hpy⟩ : p.x = (c : ℤ) ∧ ⌊p.y⌋ = (r : ℤ) := of_decide_eq_true hhit
      have hpi : pyInt p.y = (r : ℤ) := by rw [pyInt_eq_floor p.y hyp]; exact hpy
      have hcond : 0 ≤ pyInt p.y ∧ pyInt p.y < ((H : ℕ) : ℤ) ∧ 0 ≤ p.x ∧
          p.x < ((W : ℕ) : ℤ) := by
        rw [hpi, hpx]
        exact ⟨Int.natCast_nonneg r, by exact_mod_cast hr,
          Int.natCast_nonneg c, by exact_mod_cast hc⟩
      unfold placeParticle
      dsimp only
      rw [if_pos hcond]
      have ht1 : (pyInt p.y).toNat = r := by rw [hpi]; exact Int.toNat_natCast r
      have ht2 : p.x.toNat = c := by rw [hpx]; exact Int.toNat_natCast c
      rw [ht1, ht2]
      have hrow1 : ((renderGrids W H idx ps).1.getD r []).length = W := by
        rw [List.getD_eq_getElem _ [] (by rw [d1]; exact hr)]
        exact d2 _ (List.getElem_mem _)
      have hrow2 : ((renderGrids W H idx ps).2.getD r []).length = W := by
        rw [List.getD_eq_getElem _ [] (by rw [d3]; exact hr)]
        exact d4 _ (List.getElem_mem _)
      constructor
      · exact get2_set2_self _ r c _ _ (by rw [d1]; exact hr) (by rw [hrow1]; exact hc)
      · exact get2_set2_self _ r c _ _ (by rw [d3]; exact hr) (by rw [hrow2]; exact hc)
    · have hhf : hitsCell r c p = false := by
        cases hb : hitsCell r c p
        · rfl
        · exact absurd hb hhit
      simp only [hhf]
      unfold placeParticle
      dsimp only
      split
      · rename_i hcond
        have hne : ¬((pyInt p.y).toNat = r ∧ p.x.toNat = c) := by
          rintro ⟨e1, e2⟩
          apply hhit
          unfold hitsCell
          apply decide_eq_true
          constructor
          · rw [← e2]
            exact (Int.toNat_of_nonneg hcond.2.2.1).symm
          · rw [← pyInt_eq_floor p.y hyp, ← e1]
            exact (Int.toNat_of_nonneg hcond.1).symm
        exact ⟨(get2_set2_ne _ _ _ _ _ _ _ hne).trans ih1,
          (get2_set2_ne _ _ _ _ _ _ _ hne).trans ih2⟩
      · exact ⟨ih1, ih2⟩

/-- C7: `render_frame()` applies particle writes in creation order, so the
later-created particle wins every shared cell (the content of cell
`(r, c)` is the glyph/style of the last particle in list order whose
rounded-down position is that cell); a particle whose rounded-down
position is outside `[0, width) × [0, height)` matches no in-bounds cell
and is silently skipped; and the buffers never grow beyond
`height × width`, so no write occurs outside those bounds.  (Stated for
states whose particles have `y ≥ 0`, where Python's `int()` is the
rounding-down of the claim; every particle created by `__init__` and
moved by `update` from such a state satisfies this.) -/
theorem claim_C7 (frameCount : ℕ) (s : CascadeState)
    (hy : ∀ p ∈ s.particles, 0 ≤ p.y) (r c : ℕ)
    (hr : r < s.height) (hc : c < s.width) :
    ((renderFrame frameCount s).1.length = s.height ∧
      (∀ row ∈ (renderFrame frameCount s).1, row.length = s.width) ∧
      (renderFrame frameCount s).2.length = s.height ∧
      (∀ row ∈ (renderFrame frameCount s).2, row.length = s.width)) ∧
    get2 (renderFrame frameCount s).1 r c ' ' =
      (match List.find? (hitsCell r c) s.particles.reverse with
        | some p => p.char
        | none => ' ') ∧
    get2 (renderFrame frameCount s).2 r c none =
      (match List.find? (hitsCell r c) s.particles.reverse with
        | some p => resolveStyle (pulseIndex frameCount).toNat p
        | none => none) := by
  obtain ⟨h1, h2⟩ := renderGrids_cell s.width s.height (pulseIndex frameCount).toNat
    r c hr hc s.particles hy
  exact ⟨renderGrids_dims s.width s.height _ s.particles, h1, h2⟩

/-- Witness for C7: two particles in the same cell (0,0); the screen shows
the later-created one's glyph `B`. -/
theorem claim_C7_witness :
    get2 (renderFrame 0 ⟨2, 2, [⟨'A', 0, 0, 0, none, false, 1⟩,
      ⟨'B', 0, 0, 0, none, false, 1⟩], [2, 2]⟩).1 0 0 ' ' = 'B' := by
  have h := claim_C7 0 ⟨2, 2, [⟨'A', 0, 0, 0, none, false, 1⟩,
      ⟨'B', 0, 0, 0, none, false, 1⟩], [2, 2]⟩
    (by intro p hp; rcases List.mem_cons.mp hp with rfl | hp2
        · norm_num
        · rcases List.mem_cons.mp hp2 with rfl | hp3
          · norm_num
          · simp at hp3)
    0 0 (by norm_num) (by norm_num)
  rw [h.2.1]
  norm_num [hitsCell, List.find?]

/-! ## C8: the pulse colorizer -/

theorem pulsePhase_mem (t : ℝ) : 0 ≤ pulsePhase t ∧ pulsePhase t ≤ 1 := by
  unfold pulsePhase
  constructor
  · have := Real.neg_one_le_sin (t * PULSE_SPEED)
    linarith
  · have := Real.sin_le_one (t * PULSE_SPEED)
    linarith

theorem pulseIndexR_bounds (t : ℝ) : 0 ≤ pulseIndexR t ∧ pulseIndexR t ≤ 6 := by
  obtain ⟨h0, h1⟩ := pulsePhase_mem t
  have hlen : ((PULSE_COLORS_RED.length : ℝ) - 1) = 6 := by norm_num [PULSE_COLORS_RED]
  unfold pulseIndexR pyIntR
  rw [hlen]
  have harg0 : 0 ≤ pulsePhase t * 6 := mul_nonneg h0 (by norm_num)
  rw [if_pos harg0]
  constructor
  · exact Int.floor_nonneg.mpr harg0
  · have h6 : pulsePhase t * 6 ≤ 6 := by nlinarith
    calc ⌊pulsePhase t * 6⌋ ≤ ⌊(6 : ℝ)⌋ := Int.floor_le_floor h6
      _ = 6 := by norm_num

theorem pulse_periodic (t : ℝ) :
    pulsePhase (t + 2 * Real.pi / PULSE_SPEED) = pulsePhase t ∧
    pulseIndexR (t + 2 * Real.pi / PULSE_SPEED) = pulseIndexR t := by
  have hsp : (PULSE_SPEED : ℝ) ≠ 0 := by norm_num [PULSE_SPEED]
  have hphase : pulsePhase (t + 2 * Real.pi / PULSE_SPEED) = pulsePhase t := by
    unfold pulsePhase
    have harg : (t + 2 * Real.pi / PULSE_SPEED) * PULSE_SPEED =
        t * PULSE_SPEED + 2 * Real.pi := by
      field_simp
    rw [harg, Real.sin_add_two_pi]
  exact ⟨hphase, by unfold pulseIndexR; rw [hphase]⟩

/-- C8: for a frozen particle with a style tag, the pulse index derived
from `phase = (sin(frame_counter * speed) + 1) / 2` always lies in
`[0, 6]`; if the tag mentions "red" (case-insensitively) the rendered
style is the red ramp entry at that index (one of the 7 fixed entries),
else if it mentions "blue" the blue ramp entry at that index, and any
other tag is passed through unchanged; and the pulse phase and index, as
functions of a real-valued counter, are periodic with the period
`2π / speed` implied by the sine argument (at integer frame counts there
is no exact integer period, since `2π/0.15` is irrational). -/
theorem claim_C8 (frameCount : ℕ) (p : Particle) (st : String)
    (hf : p.frozen = true) (hs : p.style = some st) :
    (0 ≤ pulseIndex frameCount ∧
      pulseIndex frameCount ≤ (PULSE_COLORS_RED.length : ℤ) - 1) ∧
    (containsSub (lowerString st) "red" = true →
      resolveStyle (pulseIndex frameCount).toNat p =
        some (PULSE_COLORS_RED.getD (pulseIndex frameCount).toNat "") ∧
      PULSE_COLORS_RED.getD (pulseIndex frameCount).toNat "" ∈ PULSE_COLORS_RED) ∧
    (containsSub (lowerString st) "red" = false →
      containsSub (lowerString st) "blue" = true →
      resolveStyle (pulseIndex frameCount).toNat p =
        some (PULSE_COLORS_BLUE.getD (pulseIndex frameCount).toNat "") ∧
      PULSE_COLORS_BLUE.getD (pulseIndex frameCount).toNat "" ∈ PULSE_COLORS_BLUE) ∧
    (containsSub (lowerString st) "red" = false →
      containsSub (lowerString st) "blue" = false →
      resolveStyle (pulseIndex frameCount).toNat p = p.style) ∧
    ∀ t : ℝ, pulsePhase (t + 2 * Real.pi / PULSE_SPEED) = pulsePhase t ∧
      pulseIndexR (t + 2 * Real.pi / PULSE_SPEED) = pulseIndexR t := by
  obtain ⟨hb0, hb6⟩ := pulseIndexR_bounds (frameCount : ℝ)
  have h7r : PULSE_COLORS_RED.length = 7 := rfl
  have h7b : PULSE_COLORS_BLUE.length = 7 := rfl
  have hltr : (pulseIndex frameCount).toNat < PULSE_COLORS_RED.length := by
    rw [h7r]
    unfold pulseIndex
    omega
  have hltb : (pulseIndex frameCount).toNat < PULSE_COLORS_BLUE.length := by
    rw [h7b]
    unfold pulseIndex
    omega
  refine ⟨⟨hb0, by rw [h7r]; exact (by omega : pulseIndexR (frameCount : ℝ) ≤ (7 : ℤ) - 1)⟩,
    ?_, ?_, ?_, pulse_periodic⟩
  · intro hred
    have hstne : st ≠ "" := by
      intro h
      subst h
      exact absurd hred (by decide)
    constructor
    · simp only [resolveStyle, hs]
      rw [if_pos ⟨hf, hstne⟩, if_pos hred]
    · rw [List.getD_eq_getElem _ _ hltr]
      exact List.getElem_mem hltr
  · intro hred hblue
    have hstne : st ≠ "" := by
      intro h
      subst h
      exact absurd hblue (by decide)
    constructor
    · simp only [resolveStyle, hs]
      rw [if_pos ⟨hf, hstne⟩, if_neg (by simp [hred]), if_pos hblue]
    · rw [List.getD_eq_getElem _ _ hltb]
      exact List.getElem_mem hltb
  · intro hred hblue
    simp only [resolveStyle, hs]
    by_cases hstne : st = ""
    · rw [if_neg (fun hcon => hcon.2 hstne)]
    · rw [if_pos ⟨hf, hstne⟩, if_neg (by simp [hred]), if_neg (by simp [hblue])]

/-- Witness for C8: a frozen particle styled "bold red" renders as the red
ramp entry selected by the pulse index, which is one of the 7 entries. -/
theorem claim_C8_witness :
    resolveStyle (pulseIndex 0).toNat ⟨'X', 0, 0, 0, some "bold red", true, 0⟩ =
      some (PULSE_COLORS_RED.getD (pulseIndex 0).toNat "") ∧
    PULSE_COLORS_RED.getD (pulseIndex 0).toNat "" ∈ PULSE_COLORS_RED :=
  (claim_C8 0 ⟨'X', 0, 0, 0, some "bold red", true, 0⟩ "bold red" rfl rfl).2.1
    (by decide)

/-! ## C9: the particle factory -/

theorem map_enumFrom_snd {α β : Type} (f : α → β) (n : ℕ) (l : List α) :
    (List.enumFrom n l).map (fun ig => f ig.2) = l.map f := by
  induction l generalizing n with
  | nil => rfl
  | cons a l ih => simp only [List.enumFrom_cons, List.map_cons, ih]

/-- The glyph characters of one scanned row are exactly the row's
characters other than space and newline, in order. -/
theorem sceneGlyphs_row_chars (y n : ℕ) (cs : List Char) :
    ((List.enumFrom n cs).filterMap fun xc =>
        if xc.2 ≠ ' ' ∧ xc.2 ≠ '\n' then some (y, xc.1, xc.2) else none).map
      (fun g => g.2.2) =
      cs.filter fun ch => !(ch == ' ' || ch == '\n') := by
  induction cs generalizing n with
  | nil => rfl
  | cons c cs ih =>
    rw [List.enumFrom_cons, List.filterMap_cons, List.filter_cons]
    by_cases hc : c ≠ ' ' ∧ c ≠ '\n'
    · rw [if_pos hc]
      have hb : (!(c == ' ' || c == '\n')) = true := by
        simp [hc.1, hc.2]
      rw [if_pos hb, List.map_cons, ih]
    · rw [if_neg hc]
      have hb : ¬((!(c == ' ' || c == '\n')) = true) := by
        push_neg at hc
        by_cases h1 : c = ' '
        · simp [h1]
        · simp [h1, hc h1]
      rw [if_neg hb]
      exact ih (n + 1)

theorem sceneGlyphs_chars (bl : List String) :
    (sceneGlyphs bl).map (fun g => g.2.2) =
      (bl.map fun l => l.data.filter fun ch => !(ch == ' ' || ch == '\n')).flatten := by
  unfold sceneGlyphs
  rw [List.map_flatten]
  suffices h : ∀ m : ℕ,
      (List.map (List.map fun g => g.2.2)
        ((List.enumFrom m bl).map fun yl =>
          (List.enumFrom 0 yl.2.data).filterMap fun xc =>
            if xc.2 ≠ ' ' ∧ xc.2 ≠ '\n' then some (yl.1, xc.1, xc.2) else none)) =
        bl.map fun l => l.data.filter fun ch => !(ch == ' ' || ch == '\n') by
    rw [h 0]
  intro m
  induction bl generalizing m with
  | nil => rfl
  | cons l bl ih =>
    rw [List.enumFrom_cons, List.map_cons, List.map_cons, List.map_cons,
      sceneGlyphs_row_chars, ih (m + 1)]

/-- C9 (amended): the factory creates exactly one particle per glyph of
the scene, in row-major scan order, skipping exactly the characters
`' '` and `'\n'`: the particles' characters are the rows' characters with
spaces and newlines removed, in order, their positions are the scanned
glyph coordinates, and no created particle carries `' '` or `'\n'` (other
whitespace glyphs such as tab are not skipped; see the counterexample). -/
theorem claim_C9_amended (bl : List String) (bs : List (List (Option String)))
    (fz : List ℕ) (rng : ℕ → ℚ × ℤ) :
    ((initParticles bl bs fz rng).map Particle.char =
      (bl.map fun l => l.data.filter fun ch => !(ch == ' ' || ch == '\n')).flatten) ∧
    ((initParticles bl bs fz rng).map (fun p => (p.x, p.y)) =
      (sceneGlyphs bl).map fun g => ((g.2.1 : ℤ), ((g.1 : ℕ) : ℚ))) ∧
    ∀ p ∈ initParticles bl bs fz rng, p.char ≠ ' ' ∧ p.char ≠ '\n' := by
  have hchars : (initParticles bl bs fz rng).map Particle.char =
      (bl.map fun l => l.data.filter fun ch => !(ch == ' ' || ch == '\n')).flatten := by
    unfold initParticles
    rw [List.map_map]
    have : (Particle.char ∘ fun ig : ℕ × ℕ × ℕ × Char =>
        Particle.create ig.2.2.2 ig.2.2.1 ig.2.1 (styleAt bs ig.2.1 ig.2.2.1)
          (isInFrozenArea ig.2.2.1 ig.2.1 fz) (rng ig.1).1 (rng ig.1).2) =
        fun ig => ig.2.2.2 := by
      funext ig
      rfl
    rw [this, map_enumFrom_snd (fun g : ℕ × ℕ × Char => g.2.2) 0 (sceneGlyphs bl)]
    exact sceneGlyphs_chars bl
  refine ⟨hchars, ?_, ?_⟩
  · unfold initParticles
    rw [List.map_map]
    have : ((fun p : Particle => (p.x, p.y)) ∘ fun ig : ℕ × ℕ × ℕ × Char =>
        Particle.create ig.2.2.2 ig.2.2.1 ig.2.1 (styleAt bs ig.2.1 ig.2.2.1)
          (isInFrozenArea ig.2.2.1 ig.2.1 fz) (rng ig.1).1 (rng ig.1).2) =
        fun ig => ((ig.2.2.1 : ℤ), ((ig.2.1 : ℕ) : ℚ)) := by
      funext ig
      rfl
    rw [this]
    exact map_enumFrom_snd (fun g : ℕ × ℕ × Char => ((g.2.1 : ℤ), ((g.1 : ℕ) : ℚ))) 0
      (sceneGlyphs bl)
  · intro p hp
    have h1 : p.char ∈ (initParticles bl bs fz rng).map Particle.char :=
      List.mem_map_of_mem Particle.char hp
    rw [hchars] at h1
    obtain ⟨row, hrow, hmem⟩ := List.mem_flatten.mp h1
    obtain ⟨l, _, rfl⟩ := List.mem_map.mp hrow
    have h2 := (List.mem_filter.mp hmem).2
    constructor
    · intro hEq
      rw [hEq] at h2
      simp at h2
    · intro hEq
      rw [hEq] at h2
      simp at h2

/-- Counterexample to C9 as stated: a board row consisting of a tab
character produces a particle whose `char` is the tab, a whitespace
character — only `' '` and `'\n'` are skipped, not all whitespace. -/
theorem claim_C9_counterexample :
    (initParticles ["\t"] [] [] fun _ => (1, 1)).map Particle.char = ['\t'] ∧
    ('\t').isWhitespace = true := by
  decide
